import Mathlib

/-!
Verification of `python_cheatsheet_lib` behaviour claims.

Shallow embedding of the relevant modules:
* `OP`     — `oop/patterns/creational/object_pool.py` (`ObjectPool`)
* `Sing`   — `oop/patterns/creational/singleton.py` (`SingletonMeta`, `DatabaseConnection`)
* `Runner` — `core/runner.py` (`example_context`, `run_example`, `main`)
* `Descr`  — `metaprogramming/descriptors.py` (`RangeValidated`, `LazyProperty`)
* `Fact`   — `oop/patterns/creational/factory_method.py` (`Serializer` registry)
* `Mem`    — `oop/patterns/behavioral/memento.py` (`TextEditor`, `Game`)
* `VM`     — `oop/patterns/behavioral/state.py` (`VendingMachine`)

Python floats that only ever hold decimal literals and are compared with
`<=` are modelled as rationals; Python ints as `Int`/`Nat`.  Code is
modelled single-threaded: each method call runs atomically, which is the
semantics the claims quantify over (sequences of calls).
-/

namespace OP

/-- `PooledObject` dataclass: wrapper for pooled objects with metadata. -/
structure PooledObject (α : Type) where
  obj : α
  created_at : ℚ
  last_used : ℚ
  use_count : ℕ
deriving DecidableEq

/-- State of an `ObjectPool`.  The `factory` callable is modelled as the
stream of objects it returns: `factory n` is the object produced by its
`(n+1)`-st call.  `pool` is the FIFO `Queue` contents, head = front.
`max_size` is a Python `int` (may be `0` or negative, in which case
`Queue(maxsize=max_size)` is unbounded).  `timeout` is `float | None`. -/
structure Pool (α : Type) where
  factory : ℕ → α
  max_size : ℤ
  timeout : Option ℚ
  pool : List (PooledObject α)
  created_count : ℕ

/-- `ObjectPool.__init__`: empty queue, zero created count. -/
def mkPool (factory : ℕ → α) (max_size : ℤ) (timeout : Option ℚ) : Pool α :=
  ⟨factory, max_size, timeout, [], 0⟩

/-- Result of `ObjectPool.acquire`: a returned object, a raised
`TimeoutError`, a raised `ValueError` (out of `Queue.get` for a
negative timeout, not caught by `except Empty`), or (with
`timeout=None` and an empty queue, no other thread) blocking forever
in `Queue.get`. -/
inductive AcquireResult (α : Type) where
  | ok : α → AcquireResult α
  | timeoutError : AcquireResult α
  | valueError : AcquireResult α
  | blocked : AcquireResult α
deriving DecidableEq

/-- Outcome of `Queue.get(timeout=...)` inside `acquire`: an item, a
raised `Empty`, a raised `ValueError`, or blocking. -/
inductive GetResult (α : Type) where
  | item : PooledObject α → GetResult α
  | emptyErr : GetResult α
  | valueErr : GetResult α
  | blocked : GetResult α
deriving DecidableEq

/-- `Queue.get(block=True, timeout=self._timeout)`, single-threaded.
With `timeout is None` it pops the front element, or blocks forever on
an empty queue (nobody refills it).  With a numeric timeout, CPython
first raises `ValueError` when `timeout < 0` — before touching the
queue — and otherwise pops the front element or, on an empty queue,
raises `Empty` once the timeout expires. -/
def queueGet (p : Pool α) : GetResult α × Pool α :=
  match p.timeout with
  | none =>
    match p.pool with
    | pooled :: rest => (.item pooled, { p with pool := rest })
    | [] => (.blocked, p)
  | some t =>
    if t < 0 then (.valueErr, p)
    else
      match p.pool with
      | pooled :: rest => (.item pooled, { p with pool := rest })
      | [] => (.emptyErr, p)

/-- `ObjectPool.acquire`: `try` the `Queue.get`; on an item,
`pooled.last_used = time.time(); pooled.use_count += 1; return
pooled.obj` (the wrapper was removed from the queue by `get`, so the
updated wrapper is dropped and only its `obj` escapes); on `Empty`, a
new object is created if `created_count < max_size`, else
`TimeoutError` is raised.  `except Empty` catches nothing else, so a
`ValueError` from a negative timeout propagates.  `now` is the value
`time.time()` would return. -/
def acquire (now : ℚ) (p : Pool α) : AcquireResult α × Pool α :=
  match queueGet p with
  | (.item pooled, p1) =>
    let pooled1 : PooledObject α :=
      { pooled with last_used := now, use_count := pooled.use_count + 1 }
    (.ok pooled1.obj, p1)
  | (.emptyErr, p1) =>
    if (p1.created_count : ℤ) < p1.max_size then
      (.ok (p1.factory p1.created_count),
        { p1 with created_count := p1.created_count + 1 })
    else
      (.timeoutError, p1)
  | (.valueErr, p1) => (.valueError, p1)
  | (.blocked, p1) => (.blocked, p1)

/-- `Queue.put_nowait`: raises `Full` (modelled as `none`) iff
`0 < maxsize` and the queue already holds at least `maxsize` items;
otherwise appends at the back. -/
def putNowait (po : PooledObject α) (p : Pool α) : Option (Pool α) :=
  if 0 < p.max_size ∧ p.max_size ≤ (p.pool.length : ℤ) then none
  else some { p with pool := p.pool ++ [po] }

/-- `ObjectPool.release`: wraps `obj` in a fresh `PooledObject` and tries
`put_nowait`; any exception (`Full`) is swallowed, discarding the object,
so `release` itself never raises. -/
def release (now : ℚ) (x : α) (p : Pool α) : Pool α :=
  let pooled : PooledObject α := ⟨x, now, now, 0⟩
  (putNowait pooled p).getD p

/-- `ObjectPool.size`: `self._pool.qsize()`. -/
def size (p : Pool α) : ℕ := p.pool.length

/-- `ObjectPool.clear`: drains the queue (`get_nowait` until empty). -/
def clear (p : Pool α) : Pool α := { p with pool := [] }

/-- One client call on the pool, with the `time.time()` value it sees. -/
inductive PoolOp (α : Type) where
  | acquireOp : ℚ → PoolOp α
  | releaseOp : ℚ → α → PoolOp α
  | clearOp : PoolOp α

/-- State transition of a single call (results discarded). -/
def step (p : Pool α) (op : PoolOp α) : Pool α :=
  match op with
  | .acquireOp now => (acquire now p).2
  | .releaseOp now x => release now x p
  | .clearOp => clear p

/-- Pool state after a sequence of calls. -/
def runPool (p : Pool α) (tr : List (PoolOp α)) : Pool α := tr.foldl step p

/-- The objects passed to `release` in a call sequence. -/
def releasedArgs : List (PoolOp α) → List α
  | [] => []
  | .releaseOp _ x :: tr => x :: releasedArgs tr
  | .acquireOp _ :: tr => releasedArgs tr
  | .clearOp :: tr => releasedArgs tr

end OP

namespace Sing

/-- A `DatabaseConnection` instance, attribute by attribute: `none`
models "attribute not set" (so `hasattr(self, "host")` is
`host ≠ none`).  A freshly allocated object has no attributes. -/
structure DBInstance where
  host : Option String
  connected : Option Bool
deriving DecidableEq

/-- Freshly allocated object, before `__init__` runs. -/
def newDBInstance : DBInstance := ⟨none, none⟩

/-- `DatabaseConnection.__init__`: sets `host`/`connected` only when
`host` is not already set (`if not hasattr(self, "host")`). -/
def dbInit (self : DBInstance) (host : String) : DBInstance :=
  if self.host = none then { host := some host, connected := some true }
  else self

/-- `SingletonMeta.__call__` specialised to `DatabaseConnection`:
`instances` is `SingletonMeta._instances.get(cls)`.  When no instance is
stored, `super().__call__(args)` allocates a fresh object, runs
`__init__` on it and stores it; otherwise the stored instance is
returned untouched (with the call's argument ignored). -/
def singletonCall (host : String) (instances : Option DBInstance) :
    DBInstance × Option DBInstance :=
  match instances with
  | some inst => (inst, some inst)
  | none =>
    let inst := dbInit newDBInstance host
    (inst, some inst)

/-- Run a sequence of `DatabaseConnection(h)` constructor calls,
collecting the returned instances and the final `_instances` entry. -/
def runCalls (instances : Option DBInstance) :
    List String → List DBInstance × Option DBInstance
  | [] => ([], instances)
  | h :: rest =>
    let r := singletonCall h instances
    let rs := runCalls r.2 rest
    (r.1 :: rs.1, rs.2)

end Sing

namespace Runner

/-- What invoking a Python callable does: return a value or raise an
exception (caught by `except Exception` in `main`). -/
inductive FnOutcome (V : Type) where
  | ok : V → FnOutcome V
  | raises : FnOutcome V
deriving DecidableEq

/-- An example function: its `__name__`, the lines it prints when
invoked, and its outcome. -/
structure PyFunc (V : Type) where
  name : String
  output : List String
  outcome : FnOutcome V
deriving DecidableEq

/-- `separator = "=" * 10`. -/
def separator : String := ⟨List.replicate 10 '='⟩

/-- The string printed by `example_context` on entry
(`f"\n{separator} {name} {separator}"`); each `print` call is modelled
as one list element, without the trailing newline `print` adds. -/
def exampleHeader (n : String) : String :=
  "\n" ++ separator ++ " " ++ n ++ " " ++ separator

/-- The string printed by `example_context`'s `finally` block
(`f"{separator} END {separator}\n"`). -/
def exampleEnd : String := separator ++ " END " ++ separator ++ "\n"

/-- `example_name = name or func.__name__`: Python `or` falls through on
any falsy value, so both `None` and the empty string pick
`func.__name__`. -/
def exampleName (func : PyFunc V) (name : Option String) : String :=
  match name with
  | some s => if s = "" then func.name else s
  | none => func.name

/-- `run_example(func, name)`: prints the header, invokes `func`, and —
because `example_context` yields inside `try/finally` — prints the END
line whether `func` returns or raises.  Returns the printed lines and
`func`'s outcome (its return value, or its exception re-raised). -/
def runExample (func : PyFunc V) (name : Option String) :
    List String × FnOutcome V :=
  let n := exampleName func name
  (exampleHeader n :: (func.output ++ [exampleEnd]), func.outcome)

/-- `s.rsplit(".", 1)`: split at the last `'.'`; a string without a dot
yields a one-element list. -/
def rsplitDot (s : String) : List String :=
  let rev := s.toList.reverse
  let funcRev := rev.takeWhile (· ≠ '.')
  match rev.dropWhile (· ≠ '.') with
  | [] => [s]
  | _ :: moduleRev => [⟨moduleRev.reverse⟩, ⟨funcRev.reverse⟩]

/-- Outcome of `main()`: usage error (no argument: print usage,
`sys.exit(1)`), a caught exception (print error to stderr,
`sys.exit(1)`), or success (`run_example` output, function's value,
normal return). -/
inductive MainOutcome (V : Type) where
  | usageError : MainOutcome V
  | errorExit : MainOutcome V
  | success : List String → V → MainOutcome V
deriving DecidableEq

/-- `main()`.  `args` is `sys.argv[1:]` (the arguments after the program
name); `env m` is what `importlib.import_module(m)` finds — a module as
a map from attribute names to functions — with `none` for an
`ImportError`.  Inside the `try`: a path that does not `rsplit` into two
parts raises `ValueError`; a missing module, a missing attribute, and an
exception escaping `run_example` are all caught by `except Exception`,
which prints the error and calls `sys.exit(1)`. -/
def mainRun (env : String → Option (String → Option (PyFunc V)))
    (args : List String) : MainOutcome V :=
  match args with
  | [] => .usageError
  | module_path :: _ =>
    match rsplitDot module_path with
    | [module_name, func_name] =>
      match env module_name with
      | none => .errorExit
      | some mod =>
        match mod func_name with
        | none => .errorExit
        | some func =>
          match runExample func none with
          | (out, .ok v) => .success out v
          | (_, .raises) => .errorExit
    | _ => .errorExit

/-- Exit status of `main()`: `some 1` for `sys.exit(1)`, `none` when
`main` returns normally (the process then exits 0). -/
def exitCode : MainOutcome V → Option ℕ
  | .usageError => some 1
  | .errorExit => some 1
  | .success _ _ => none

end Runner

namespace Descr

/-- `RangeValidated.__init__(min_value, max_value)`.  The backing slot
`self.name = "_" + name` on the owner instance is modelled as an
`Option ℚ` (`none` = attribute absent). -/
structure RangeValidated where
  min_value : ℚ
  max_value : ℚ
deriving DecidableEq

/-- `RangeValidated.__set__`: raises `ValueError` (modelled as
`.error ()`) unless `min_value <= value <= max_value`, else stores the
value in the backing slot. -/
def rvSet (d : RangeValidated) (value : ℚ) : Except Unit (Option ℚ) :=
  if ¬(d.min_value ≤ value ∧ value ≤ d.max_value) then .error ()
  else .ok (some value)

/-- Effect of an assignment on the backing slot: a raising `__set__`
aborts before `setattr`, leaving the slot unchanged. -/
def rvApplySet (d : RangeValidated) (stored : Option ℚ) (value : ℚ) :
    Option ℚ :=
  match rvSet d value with
  | .error _ => stored
  | .ok st => st

/-- `RangeValidated.__get__`: `getattr(obj, self.name, 0.0)`. -/
def rvGet (stored : Option ℚ) : ℚ := stored.getD 0

/-- Backing slot after a sequence of assignment attempts. -/
def rvRun (d : RangeValidated) (stored : Option ℚ) (vs : List ℚ) :
    Option ℚ :=
  vs.foldl (rvApplySet d) stored

/-- The assignments the descriptor accepts. -/
def rvAccepted (d : RangeValidated) (vs : List ℚ) : List ℚ :=
  vs.filter (fun v => decide (d.min_value ≤ v ∧ v ≤ d.max_value))

/-- Per-instance state relevant to a `LazyProperty`-decorated method:
the instance `__dict__` entry under `func.__name__` (`none` = absent)
and how many times the underlying function has been called. -/
structure LazyState (V : Type) where
  stored : Option V
  calls : ℕ
deriving DecidableEq

/-- One attribute access.  `LazyProperty` defines only `__get__` (a
non-data descriptor), so once `setattr(obj, self.name, value)` has put
the value into the instance `__dict__`, lookup finds it there and the
descriptor — hence the function — is not invoked again.  The underlying
method is pure on the instance, modelled as `f : Unit → V`. -/
def lazyGet (f : Unit → V) (st : LazyState V) : V × LazyState V :=
  match st.stored with
  | some v => (v, st)
  | none =>
    let v := f ()
    (v, ⟨some v, st.calls + 1⟩)

/-- `n` successive attribute accesses, collecting the returned values. -/
def lazyAccessN (f : Unit → V) (st : LazyState V) :
    ℕ → List V × LazyState V
  | 0 => ([], st)
  | n + 1 =>
    let r := lazyGet f st
    let rs := lazyAccessN f r.2 n
    (r.1 :: rs.1, rs.2)

/-- Instance state before any access: empty `__dict__` entry, function
never called. -/
def lazyInit : LazyState V := ⟨none, 0⟩

end Descr

namespace Fact

/-- `str.lower()` (class and format names here are ASCII). -/
def pyLower (s : String) : String := ⟨s.toList.map Char.toLower⟩

/-- Strip `pat` from the front of `s`, if it is there. -/
def stripFront : List Char → List Char → Option (List Char)
  | [], s => some s
  | _ :: _, [] => none
  | p :: ps, c :: cs => if p = c then stripFront ps cs else none

/-- Fuelled worker for `str.replace`: scan left to right, replacing
non-overlapping occurrences.  The fuel (the string's length) suffices
for every non-empty pattern, the only case the source uses. -/
def replaceAux (pat repl : List Char) : ℕ → List Char → List Char
  | 0, s => s
  | _, [] => []
  | fuel + 1, c :: cs =>
    match stripFront pat (c :: cs) with
    | some rest => repl ++ replaceAux pat repl fuel rest
    | none => c :: replaceAux pat repl fuel cs

/-- `s.replace(pat, repl)` for non-empty `pat`: every occurrence of
`pat` in `s` is replaced. -/
def pyReplace (s pat repl : String) : String :=
  ⟨replaceAux pat.toList repl.toList s.toList.length s.toList⟩

/-- `Serializer.__init_subclass__`'s key computation:
`cls.__name__.replace("Serializer", "").lower()`. -/
def registryKey (className : String) : String :=
  pyLower (pyReplace className "Serializer" "")

/-- `Serializer._registry` dict, as an association list where the most
recent assignment comes first (so `lookup` sees the latest binding, as
a dict would). -/
abbrev Registry := List (String × String)

/-- `cls._registry[format_name] = cls` inside `__init_subclass__`. -/
def registerSubclass (reg : Registry) (className : String) : Registry :=
  (registryKey className, className) :: reg

/-- The registry after the module body has defined `JSONSerializer`,
`XMLSerializer` and `YAMLSerializer`, in that order. -/
def initialRegistry : Registry :=
  registerSubclass
    (registerSubclass (registerSubclass [] "JSONSerializer")
      "XMLSerializer")
    "YAMLSerializer"

/-- `Serializer.create(format_type)`: looks up
`_registry.get(format_type.lower())` and raises `ValueError` when the
lookup finds nothing (`if not serializer_class` — a class object is
always truthy); otherwise instantiates the class, modelled by returning
its name. -/
def create (reg : Registry) (format_type : String) :
    Except String String :=
  match reg.lookup (pyLower format_type) with
  | none => .error ("Unknown format: " ++ format_type)
  | some c => .ok c

/-- Modelled from the claim's words, for comparison with `registryKey`:
"its class name lowercased with the `Serializer` suffix removed" —
remove the suffix (only a suffix), then lowercase. -/
def specSuffixKey (className : String) : String :=
  let cs := className.toList
  let pat := "Serializer".toList
  if pat.length ≤ cs.length ∧ cs.drop (cs.length - pat.length) = pat then
    pyLower ⟨cs.take (cs.length - pat.length)⟩
  else pyLower className

end Fact

namespace Mem

/-- `EditorMemento` frozen dataclass. -/
structure EditorMemento where
  content : List Char
  cursor_position : ℕ
deriving DecidableEq

/-- `TextEditor` state.  The cursor is produced only by `max(0, ...)`
and `+ len(text)`, so it is a natural number; operation arguments are
Python ints. -/
structure TextEditor where
  content : List Char
  cursor_position : ℕ
deriving DecidableEq

/-- `TextEditor.__init__`. -/
def newEditor : TextEditor := ⟨[], 0⟩

/-- `TextEditor.type`: splice `text` in at the cursor, advance cursor. -/
def typeText (e : TextEditor) (text : List Char) : TextEditor :=
  ⟨e.content.take e.cursor_position ++ text
      ++ e.content.drop e.cursor_position,
    e.cursor_position + text.length⟩

/-- `TextEditor.delete`: `start = max(0, cursor - count)`;
`content = content[:start] + content[cursor:]`; cursor moves to
`start`.  (`count` is a Python int and may be negative.) -/
def delete (e : TextEditor) (count : ℤ) : TextEditor :=
  let start : ℕ := (max 0 ((e.cursor_position : ℤ) - count)).toNat
  ⟨e.content.take start ++ e.content.drop e.cursor_position, start⟩

/-- `TextEditor.move_cursor`: clamp to `[0, len(content)]`. -/
def moveCursor (e : TextEditor) (position : ℤ) : TextEditor :=
  ⟨e.content,
    (max 0 (min position (e.content.length : ℤ))).toNat⟩

/-- `TextEditor.save`. -/
def save (e : TextEditor) : EditorMemento :=
  ⟨e.content, e.cursor_position⟩

/-- `TextEditor.restore`. -/
def restore (_e : TextEditor) (m : EditorMemento) : TextEditor :=
  ⟨m.content, m.cursor_position⟩

/-- One editor operation. -/
inductive EditorOp where
  | typeOp : List Char → EditorOp
  | deleteOp : ℤ → EditorOp
  | moveCursorOp : ℤ → EditorOp

/-- Apply a sequence of editor operations. -/
def runEditor (e : TextEditor) (ops : List EditorOp) : TextEditor :=
  ops.foldl
    (fun e op =>
      match op with
      | .typeOp t => typeText e t
      | .deleteOp c => delete e c
      | .moveCursorOp p => moveCursor e p)
    e

/-- `GameMemento` frozen dataclass. -/
structure GameMemento where
  level : ℤ
  score : ℤ
  health : ℤ
  position : ℤ × ℤ
deriving DecidableEq

/-- `Game` state (all Python ints). -/
structure Game where
  level : ℤ
  score : ℤ
  health : ℤ
  position : ℤ × ℤ
deriving DecidableEq

/-- `Game.__init__`. -/
def newGame : Game := ⟨1, 0, 100, (0, 0)⟩

/-- `Game.level_up`. -/
def levelUp (g : Game) : Game := { g with level := g.level + 1 }

/-- `Game.add_score`. -/
def addScore (g : Game) (points : ℤ) : Game :=
  { g with score := g.score + points }

/-- `Game.take_damage`: `health = max(0, health - damage)`. -/
def takeDamage (g : Game) (damage : ℤ) : Game :=
  { g with health := max 0 (g.health - damage) }

/-- `Game.move`. -/
def move (g : Game) (x y : ℤ) : Game := { g with position := (x, y) }

/-- `Game.save`. -/
def saveGame (g : Game) : GameMemento :=
  ⟨g.level, g.score, g.health, g.position⟩

/-- `Game.restore`. -/
def restoreGame (_g : Game) (m : GameMemento) : Game :=
  ⟨m.level, m.score, m.health, m.position⟩

/-- One game operation. -/
inductive GameOp where
  | levelUpOp : GameOp
  | addScoreOp : ℤ → GameOp
  | takeDamageOp : ℤ → GameOp
  | moveOp : ℤ → ℤ → GameOp

/-- Apply a sequence of game operations. -/
def runGame (g : Game) (ops : List GameOp) : Game :=
  ops.foldl
    (fun g op =>
      match op with
      | .levelUpOp => levelUp g
      | .addScoreOp p => addScore g p
      | .takeDamageOp d => takeDamage g d
      | .moveOp x y => move g x y)
    g

end Mem

namespace VM

/-- The three `State` subclasses; the `VendingMachine` constructor
starts in `NoCoinState`. -/
inductive VMState where
  | noCoin | hasCoin | dispensing
deriving DecidableEq

/-- The three public methods of `VendingMachine`. -/
inductive VMOp where
  | insertCoin | selectItem | dispense
deriving DecidableEq

/-- One delegated call `self._state.<op>(self)`: the returned message
and the machine's state afterwards, straight from the three concrete
`State` classes. -/
def vmStep : VMState → VMOp → String × VMState
  | .noCoin, .insertCoin => ("Coin inserted", .hasCoin)
  | .noCoin, .selectItem => ("Insert coin first", .noCoin)
  | .noCoin, .dispense => ("Insert coin first", .noCoin)
  | .hasCoin, .insertCoin => ("Coin already inserted", .hasCoin)
  | .hasCoin, .selectItem => ("Item selected", .dispensing)
  | .hasCoin, .dispense => ("Select item first", .hasCoin)
  | .dispensing, .insertCoin => ("Please wait, dispensing item", .dispensing)
  | .dispensing, .selectItem => ("Already dispensing", .dispensing)
  | .dispensing, .dispense => ("Item dispensed", .noCoin)

/-- Machine state after a call sequence. -/
def vmRun (s : VMState) : List VMOp → VMState
  | [] => s
  | op :: tr => vmRun (vmStep s op).2 tr

/-- How many calls in the sequence return the message `m`. -/
def countMsg (m : String) (s : VMState) : List VMOp → ℕ
  | [] => 0
  | op :: tr =>
    (if (vmStep s op).1 = m then 1 else 0)
      + countMsg m (vmStep s op).2 tr

/-- 1 when the state holds an unconsumed coin not yet turned into a
selection. -/
def coinFlag (s : VMState) : ℕ := if s = .hasCoin then 1 else 0

/-- 1 when an item has been selected but not yet dispensed. -/
def dispFlag (s : VMState) : ℕ := if s = .dispensing then 1 else 0

end VM

/-! ## Helper lemmas -/

namespace VM

/-- Running one more call applies `vmStep` to the state reached so far. -/
theorem vmRun_append (s : VMState) (tr : List VMOp) (op : VMOp) :
    vmRun s (tr ++ [op]) = (vmStep (vmRun s tr) op).2 := by
  induction tr generalizing s with
  | nil => rfl
  | cons o rest ih => simpa [vmRun] using ih (vmStep s o).2

/-- Coin conservation: successful `insert_coin`s minus successful
`select_item`s equals the change of the held-coin flag. -/
theorem vm_coin_invariant :
    ∀ (tr : List VMOp) (s : VMState),
      countMsg "Coin inserted" s tr + coinFlag s
        = countMsg "Item selected" s tr + coinFlag (vmRun s tr) := by
  intro tr
  induction tr with
  | nil => intro s; simp [countMsg, vmRun]
  | cons op rest ih =>
    intro s
    have h := ih (vmStep s op).2
    cases s <;> cases op <;>
      simp only [countMsg, vmRun, vmStep, coinFlag] at h ⊢ <;>
      simp at h ⊢ <;> omega

/-- Selection conservation: successful `select_item`s minus successful
`dispense`s equals the change of the dispensing flag. -/
theorem vm_select_invariant :
    ∀ (tr : List VMOp) (s : VMState),
      countMsg "Item selected" s tr + dispFlag s
        = countMsg "Item dispensed" s tr + dispFlag (vmRun s tr) := by
  intro tr
  induction tr with
  | nil => intro s; simp [countMsg, vmRun]
  | cons op rest ih =>
    intro s
    have h := ih (vmStep s op).2
    cases s <;> cases op <;>
      simp only [countMsg, vmRun, vmStep, dispFlag] at h ⊢ <;>
      simp at h ⊢ <;> omega

end VM

namespace Sing

/-- Once an instance is stored in `_instances`, every further
constructor call returns it and leaves the stored entry unchanged. -/
theorem runCalls_some (i : DBInstance) :
    ∀ l : List String, runCalls (some i) l = (List.replicate l.length i, some i) := by
  intro l
  induction l with
  | nil => rfl
  | cons h rest ih =>
    simp [runCalls, singletonCall, ih, List.replicate_succ]

end Sing

namespace Descr

/-- Once a value is cached in the instance dict, further accesses
return it and never call the function. -/
theorem lazyAccessN_stored (f : Unit → V) (v : V) (c : ℕ) :
    ∀ n, lazyAccessN f ⟨some v, c⟩ n = (List.replicate n v, ⟨some v, c⟩) := by
  intro n
  induction n with
  | zero => rfl
  | succ m ih => simp [lazyAccessN, lazyGet, ih, List.replicate_succ]

/-- The backing slot after a sequence of assignment attempts is the
last accepted value, or the initial slot content if none was
accepted. -/
theorem rvRun_eq_lastAccepted (d : RangeValidated) (st : Option ℚ) :
    ∀ vs : List ℚ, rvRun d st vs = ((rvAccepted d vs).getLast?).or st := by
  intro vs
  induction vs using List.reverseRecOn with
  | nil => simp [rvRun, rvAccepted]
  | append_singleton l v ih =>
    by_cases hv : d.min_value ≤ v ∧ v ≤ d.max_value
    · have hacc : rvAccepted d (l ++ [v]) = rvAccepted d l ++ [v] := by
        simp [rvAccepted, List.filter_append, hv]
      simp [rvRun, List.foldl_append, rvApplySet, rvSet, hv] at ih ⊢
      simp [hacc, List.getLast?_concat]
    · have hacc : rvAccepted d (l ++ [v]) = rvAccepted d l := by
        simp [rvAccepted, List.filter_append, hv]
      simp [rvRun, List.foldl_append, rvApplySet, rvSet, hv] at ih ⊢
      simp [hacc, ih]

end Descr

/-! ## Claim theorems -/

/-- Claim C9 — memento round-trip: for any `TextEditor` state, capturing
a memento with `save()` and calling `restore` on it after any sequence
of `type`/`delete`/`move_cursor` operations restores content and cursor
exactly; likewise `Game.restore(save())` after any sequence of
`level_up`/`add_score`/`take_damage`/`move` restores level, score,
health and position exactly. -/
theorem memento_roundtrip :
    ∀ (e : Mem.TextEditor) (ops : List Mem.EditorOp)
      (g : Mem.Game) (gops : List Mem.GameOp),
      Mem.restore (Mem.runEditor e ops) (Mem.save e) = e
      ∧ (Mem.restore (Mem.runEditor e ops) (Mem.save e)).content = e.content
      ∧ (Mem.restore (Mem.runEditor e ops) (Mem.save e)).cursor_position
          = e.cursor_position
      ∧ Mem.restoreGame (Mem.runGame g gops) (Mem.saveGame g) = g := by
  intro e ops g gops
  refine ⟨rfl, rfl, rfl, rfl⟩

/-- Claim C10 — vending machine safety: `dispense` returns
`"Item dispensed"` exactly in `DispensingState`; the only transitions
are NoCoin→HasCoin on `insert_coin`, HasCoin→Dispensing on
`select_item`, Dispensing→NoCoin on `dispense`; every other call leaves
the state unchanged and returns a refusal (none of the three success
messages); along every call sequence from the initial `NoCoinState`,
successful selections never outnumber inserted coins and successful
dispenses never outnumber selections; and Dispensing is entered only by
`select_item` from HasCoin, which is entered only by `insert_coin` from
NoCoin. -/
theorem vending_machine_safety :
    (VM.vmStep .noCoin .insertCoin = ("Coin inserted", .hasCoin)
      ∧ VM.vmStep .hasCoin .selectItem = ("Item selected", .dispensing)
      ∧ VM.vmStep .dispensing .dispense = ("Item dispensed", .noCoin))
    ∧ (∀ s op, (VM.vmStep s op).1 = "Item dispensed"
        ↔ s = .dispensing ∧ op = .dispense)
    ∧ (∀ s op, ¬(s = .noCoin ∧ op = .insertCoin) →
        ¬(s = .hasCoin ∧ op = .selectItem) →
        ¬(s = .dispensing ∧ op = .dispense) →
        (VM.vmStep s op).2 = s
        ∧ (VM.vmStep s op).1 ≠ "Coin inserted"
        ∧ (VM.vmStep s op).1 ≠ "Item selected"
        ∧ (VM.vmStep s op).1 ≠ "Item dispensed")
    ∧ (∀ tr, VM.countMsg "Item selected" .noCoin tr
          ≤ VM.countMsg "Coin inserted" .noCoin tr
        ∧ VM.countMsg "Item dispensed" .noCoin tr
          ≤ VM.countMsg "Item selected" .noCoin tr)
    ∧ (∀ tr op, VM.vmRun .noCoin (tr ++ [op]) = .dispensing →
        (op = .selectItem ∧ VM.vmRun .noCoin tr = .hasCoin)
          ∨ (VM.vmRun .noCoin tr = .dispensing ∧ op ≠ .dispense))
    ∧ (∀ tr op, VM.vmRun .noCoin (tr ++ [op]) = .hasCoin →
        (op = .insertCoin ∧ VM.vmRun .noCoin tr = .noCoin)
          ∨ (VM.vmRun .noCoin tr = .hasCoin ∧ op ≠ .selectItem)) := by
  refine ⟨⟨rfl, rfl, rfl⟩, ?_, ?_, ?_, ?_, ?_⟩
  · intro s op
    cases s <;> cases op <;> simp [VM.vmStep]
  · intro s op h1 h2 h3
    cases s <;> cases op <;> simp_all [VM.vmStep]
  · intro tr
    have h1 := VM.vm_coin_invariant tr .noCoin
    have h2 := VM.vm_select_invariant tr .noCoin
    simp [VM.coinFlag, VM.dispFlag] at h1 h2
    constructor <;> omega
  · intro tr op h
    rw [VM.vmRun_append] at h
    rcases hs : VM.vmRun .noCoin tr <;> rw [hs] at h <;>
      cases op <;> simp [VM.vmStep] at h <;> simp [hs]
  · intro tr op h
    rw [VM.vmRun_append] at h
    rcases hs : VM.vmRun .noCoin tr <;> rw [hs] at h <;>
      cases op <;> simp [VM.vmStep] at h <;> simp [hs]

/-- Witness for C10: after `insert_coin`, a `select_item` call is the
step that put the machine in the dispensing state (hypothesis of the
reachability clause discharged at a concrete trace). -/
theorem vending_machine_safety_witness :
    (VM.VMOp.selectItem = VM.VMOp.selectItem
        ∧ VM.vmRun .noCoin [VM.VMOp.insertCoin] = .hasCoin)
      ∨ (VM.vmRun .noCoin [VM.VMOp.insertCoin] = .dispensing
          ∧ VM.VMOp.selectItem ≠ VM.VMOp.dispense) := by
  exact (vending_machine_safety.2.2.2.2.1 [VM.VMOp.insertCoin]
    VM.VMOp.selectItem (by decide))

/-- Claim C3 — singleton identity: with `SingletonMeta`, every
constructor call in a sequence `DatabaseConnection(h) ;
DatabaseConnection(h₂) ; ...` returns the one instance created by the
first call, whose attributes come from the first call's argument
(`host = h`, `connected = True`); later calls' arguments are ignored. -/
theorem singleton_identity (h : String) (rest : List String) :
    Sing.dbInit Sing.newDBInstance h = ⟨some h, some true⟩
    ∧ (∀ r ∈ (Sing.runCalls none (h :: rest)).1, r = ⟨some h, some true⟩)
    ∧ (Sing.runCalls none (h :: rest)).2 = some ⟨some h, some true⟩
    ∧ (Sing.runCalls none (h :: rest)).1.length = rest.length + 1 := by
  have hinit : Sing.dbInit Sing.newDBInstance h = ⟨some h, some true⟩ := by
    simp [Sing.dbInit, Sing.newDBInstance]
  have hrun : Sing.runCalls none (h :: rest)
      = (⟨some h, some true⟩ :: List.replicate rest.length ⟨some h, some true⟩,
          some ⟨some h, some true⟩) := by
    simp [Sing.runCalls, Sing.singletonCall, hinit, Sing.runCalls_some]
  refine ⟨hinit, ?_, by simp [hrun], by simp [hrun]⟩
  intro r hr
  rw [hrun] at hr
  rcases List.mem_cons.mp hr with hr | hr
  · exact hr
  · exact List.eq_of_mem_replicate hr

/-- Witness for C3: `DatabaseConnection("localhost")` followed by
`DatabaseConnection("remotehost")` — the second returned instance is the
first one, with `host = "localhost"`. -/
theorem singleton_identity_witness :
    (Sing.runCalls none ["localhost", "remotehost"]).1.getD 1 ⟨none, none⟩
      = ⟨some "localhost", some true⟩ := by
  exact (singleton_identity "localhost" ["remotehost"]).2.1 _ (by decide)

/-- Claim C6 — lazy property call-once: starting from a fresh instance
(function not yet called), any positive number of attribute accesses
calls the underlying function exactly once; each access returns the
function's value, and after the first access the value sits in the
instance dict. -/
theorem lazy_property_once (V : Type) (f : Unit → V) (n : ℕ) (hn : 1 ≤ n) :
    (Descr.lazyInit : Descr.LazyState V).calls = 0
    ∧ (Descr.lazyAccessN f Descr.lazyInit n).2.calls = 1
    ∧ (Descr.lazyAccessN f Descr.lazyInit n).2.stored = some (f ())
    ∧ ∀ v ∈ (Descr.lazyAccessN f Descr.lazyInit n).1, v = f () := by
  obtain ⟨m, rfl⟩ : ∃ m, n = m + 1 := ⟨n - 1, by omega⟩
  have hfirst : Descr.lazyGet f (Descr.lazyInit : Descr.LazyState V)
      = (f (), ⟨some (f ()), 1⟩) := by
    simp [Descr.lazyGet, Descr.lazyInit]
  have hrun : Descr.lazyAccessN f (Descr.lazyInit : Descr.LazyState V) (m + 1)
      = (f () :: List.replicate m (f ()), ⟨some (f ()), 1⟩) := by
    simp [Descr.lazyAccessN, hfirst, Descr.lazyAccessN_stored]
  refine ⟨rfl, by simp [hrun], by simp [hrun], ?_⟩
  intro v hv
  rw [hrun] at hv
  rcases List.mem_cons.mp hv with hv | hv
  · exact hv
  · exact List.eq_of_mem_replicate hv

/-- Witness for C6: three accesses on a fresh instance leave the call
count at exactly one. -/
theorem lazy_property_once_witness :
    (Descr.lazyAccessN (fun _ => (5 : ℕ)) Descr.lazyInit 3).2.calls = 1 := by
  exact (lazy_property_once ℕ (fun _ => 5) 3 (by norm_num)).2.1

/-- Claim C5 — `RangeValidated`: assignment raises `ValueError` iff the
value is outside `[min_value, max_value]`; a rejected assignment leaves
the backing slot unchanged, an accepted one stores the value; after any
sequence of assignment attempts, reading returns the most recently
accepted value, and `0.0` when no assignment has been accepted. -/
theorem range_validated_semantics (d : Descr.RangeValidated) (v : ℚ)
    (st : Option ℚ) (vs : List ℚ) :
    (Descr.rvSet d v = .error ()
      ↔ ¬(d.min_value ≤ v ∧ v ≤ d.max_value))
    ∧ (¬(d.min_value ≤ v ∧ v ≤ d.max_value) →
        Descr.rvApplySet d st v = st)
    ∧ ((d.min_value ≤ v ∧ v ≤ d.max_value) →
        Descr.rvApplySet d st v = some v)
    ∧ Descr.rvGet (Descr.rvRun d none vs)
        = ((Descr.rvAccepted d vs).getLast?).getD 0 := by
  refine ⟨?_, ?_, ?_, ?_⟩
  · by_cases hv : d.min_value ≤ v ∧ v ≤ d.max_value <;>
      simp [Descr.rvSet, hv]
  · intro hv; simp [Descr.rvApplySet, Descr.rvSet, hv]
  · intro hv; simp [Descr.rvApplySet, Descr.rvSet, hv]
  · rw [Descr.rvGet, Descr.rvRun_eq_lastAccepted, Option.or_none]

/-- Witness for C5: with bounds `[0, 10]`, assigning `20` is rejected
and leaves a previously stored `5` in place. -/
theorem range_validated_semantics_witness :
    Descr.rvApplySet ⟨0, 10⟩ (some 5) 20 = some 5 := by
  exact (range_validated_semantics ⟨0, 10⟩ 20 (some 5) []).2.1 (by norm_num)

/-- Counterexample for C8 as stated: when the caller passes the (falsy)
empty string as `name`, `run_example` prints the function's `__name__`
in the delimiter line — not the passed name — because `name or
func.__name__` falls through on every falsy value, not only on `None`. -/
theorem run_example_name_counterexample :
    (Runner.runExample
        (⟨"my_example", [], Runner.FnOutcome.ok (0 : ℕ)⟩ : Runner.PyFunc ℕ)
        (some "")).1
      = [Runner.exampleHeader "my_example", Runner.exampleEnd]
    ∧ Runner.exampleHeader "my_example" ≠ Runner.exampleHeader "" := by
  exact ⟨rfl, by decide⟩

/-- Claim C8 (amended — the delimiter name defaults to `func.__name__`
when `name` is `None` *or empty*, since `name or func.__name__` tests
truthiness): `run_example(func, name)` prints the
`\n========== <resolved name> ==========` delimiter before `func`'s own
output, prints `========== END ==========\n` last even when `func`
raises, and returns `func`'s return value when `func` returns
normally. -/
theorem run_example_amended (V : Type) (func : Runner.PyFunc V)
    (name : Option String) (s : String) (v : V) :
    (Runner.runExample func name).1
        = Runner.exampleHeader (Runner.exampleName func name)
            :: (func.output ++ [Runner.exampleEnd])
    ∧ (Runner.runExample func name).1.getLast? = some Runner.exampleEnd
    ∧ (name = none → Runner.exampleName func name = func.name)
    ∧ (name = some "" → Runner.exampleName func name = func.name)
    ∧ (s ≠ "" → name = some s → Runner.exampleName func name = s)
    ∧ (func.outcome = .ok v → (Runner.runExample func name).2 = .ok v) := by
  refine ⟨rfl, ?_, ?_, ?_, ?_, ?_⟩
  · show (Runner.exampleHeader (Runner.exampleName func name)
        :: (func.output ++ [Runner.exampleEnd])).getLast? = some Runner.exampleEnd
    rw [show Runner.exampleHeader (Runner.exampleName func name)
          :: (func.output ++ [Runner.exampleEnd])
        = (Runner.exampleHeader (Runner.exampleName func name)
            :: func.output) ++ [Runner.exampleEnd] by simp]
    exact List.getLast?_concat _
  · intro h; simp [Runner.exampleName, h]
  · intro h; simp [Runner.exampleName, h]
  · intro hs h; simp [Runner.exampleName, h, hs]
  · intro h; simp [Runner.runExample, h]

/-- Witness for C8: a non-empty explicit name is the one printed. -/
theorem run_example_amended_witness :
    Runner.exampleName
        (⟨"f", ["x"], Runner.FnOutcome.ok (1 : ℕ)⟩ : Runner.PyFunc ℕ)
        (some "Demo") = "Demo" := by
  exact (run_example_amended ℕ ⟨"f", ["x"], Runner.FnOutcome.ok 1⟩
    (some "Demo") "Demo" 1).2.2.2.2.1 (by decide) rfl

/-- A path without a dot survives `rsplit(".", 1)` whole, as a
one-element list. -/
theorem Runner.rsplitDot_no_dot (s : String) (h : '.' ∉ s.toList) :
    Runner.rsplitDot s = [s] := by
  have hdrop : List.dropWhile (fun x => !decide (x = '.')) s.data.reverse = [] := by
    rw [List.dropWhile_eq_nil_iff]
    intro x hx
    simp only [List.mem_reverse] at hx
    simp only [Bool.not_eq_true', decide_eq_false_iff_not]
    intro hxe
    exact h (hxe ▸ hx)
  simp [Runner.rsplitDot, hdrop]

/-- Claim C4 — CLI exit behaviour: `main()` exits with status 1 when
there is no command-line argument, when the argument has no dot to
split on, when the module fails to import, when the function name is
missing from the module, and when the invoked function raises; on
success it resolves `module.function`, invokes the function through
`run_example`, and returns normally (no non-zero exit). -/
theorem cli_main_exit_codes (V : Type)
    (env : String → Option (String → Option (Runner.PyFunc V)))
    (s module_name func_name : String) (rest : List String)
    (mod : String → Option (Runner.PyFunc V)) (func : Runner.PyFunc V)
    (v : V) :
    Runner.exitCode (Runner.mainRun env ([] : List String)) = some 1
    ∧ ('.' ∉ s.toList →
        Runner.exitCode (Runner.mainRun env (s :: rest)) = some 1)
    ∧ (Runner.rsplitDot s = [module_name, func_name] →
        env module_name = none →
        Runner.exitCode (Runner.mainRun env (s :: rest)) = some 1)
    ∧ (Runner.rsplitDot s = [module_name, func_name] →
        env module_name = some mod → mod func_name = none →
        Runner.exitCode (Runner.mainRun env (s :: rest)) = some 1)
    ∧ (Runner.rsplitDot s = [module_name, func_name] →
        env module_name = some mod → mod func_name = some func →
        func.outcome = .raises →
        Runner.exitCode (Runner.mainRun env (s :: rest)) = some 1)
    ∧ (Runner.rsplitDot s = [module_name, func_name] →
        env module_name = some mod → mod func_name = some func →
        func.outcome = .ok v →
        Runner.mainRun env (s :: rest)
            = .success (Runner.runExample func none).1 v
        ∧ Runner.exitCode (Runner.mainRun env (s :: rest)) = none) := by
  refine ⟨rfl, ?_, ?_, ?_, ?_, ?_⟩
  · intro h
    simp [Runner.mainRun, Runner.rsplitDot_no_dot s h, Runner.exitCode]
  · intro hsplit henv
    simp [Runner.mainRun, hsplit, henv, Runner.exitCode]
  · intro hsplit henv hmod
    simp [Runner.mainRun, hsplit, henv, hmod, Runner.exitCode]
  · intro hsplit henv hmod hout
    simp [Runner.mainRun, hsplit, henv, hmod, Runner.runExample, hout,
      Runner.exitCode]
  · intro hsplit henv hmod hout
    simp [Runner.mainRun, hsplit, henv, hmod, Runner.runExample, hout,
      Runner.exitCode]

/-- Witness for C4: a resolvable `pkg.demo` path runs the example and
returns normally with `run_example`'s output. -/
theorem cli_main_exit_codes_witness :
    Runner.mainRun
        (fun m => if m = "pkg"
          then some (fun f => if f = "demo"
            then some (⟨"demo", ["hi"], Runner.FnOutcome.ok (3 : ℕ)⟩ :
              Runner.PyFunc ℕ)
            else none)
          else none)
        ["pkg.demo"]
      = .success
          (Runner.runExample
            (⟨"demo", ["hi"], Runner.FnOutcome.ok 3⟩ : Runner.PyFunc ℕ)
            none).1 3 := by
  exact (cli_main_exit_codes ℕ _ "pkg.demo" "pkg" "demo" []
    (fun f => if f = "demo"
      then some (⟨"demo", ["hi"], Runner.FnOutcome.ok 3⟩ : Runner.PyFunc ℕ)
      else none)
    ⟨"demo", ["hi"], Runner.FnOutcome.ok 3⟩ 3).2.2.2.2.2
    (by decide) (by simp) (by simp) rfl |>.1

/-- Counterexample for C7 as stated: `__init_subclass__` computes the
key with `replace("Serializer", "")`, which removes *every* occurrence
of `"Serializer"`, not only a suffix — a subclass named
`SerializerASerializer` is registered under `"a"`, while the claim's
suffix-removal rule would give `"serializera"`. -/
theorem serializer_key_counterexample :
    Fact.registryKey "SerializerASerializer" = "a"
    ∧ Fact.specSuffixKey "SerializerASerializer" = "serializera"
    ∧ Fact.registryKey "SerializerASerializer"
        ≠ Fact.specSuffixKey "SerializerASerializer" := by
  exact ⟨by decide, by decide, by decide⟩

/-- Association-list lookup at the key just inserted. -/
theorem Fact.lookup_cons_self (k v : String) (l : Fact.Registry) :
    List.lookup k ((k, v) :: l) = some v := by
  simp [List.lookup]

/-- Association-list lookup skips an entry with a different key. -/
theorem Fact.lookup_cons_ne (k k' v : String) (l : Fact.Registry)
    (h : k ≠ k') : List.lookup k ((k', v) :: l) = List.lookup k l := by
  simp [List.lookup, beq_eq_false_iff_ne.mpr h]

/-- Looking up any key in the registry left by the module body. -/
theorem Fact.initialRegistry_lookup (k : String) :
    Fact.initialRegistry.lookup k
      = if k = "yaml" then some "YAMLSerializer"
        else if k = "xml" then some "XMLSerializer"
        else if k = "json" then some "JSONSerializer"
        else none := by
  have h1 : Fact.registryKey "YAMLSerializer" = "yaml" := by decide
  have h2 : Fact.registryKey "XMLSerializer" = "xml" := by decide
  have h3 : Fact.registryKey "JSONSerializer" = "json" := by decide
  simp only [Fact.initialRegistry, Fact.registerSubclass, h1, h2, h3]
  split_ifs with ha hb hc
  · subst ha; decide
  · subst hb; decide
  · subst hc; decide
  · rw [Fact.lookup_cons_ne _ _ _ _ ha, Fact.lookup_cons_ne _ _ _ _ hb,
      Fact.lookup_cons_ne _ _ _ _ hc]
    rfl

/-- Claim C7 (amended — a subclass is registered under its class name
with every occurrence of `"Serializer"` removed, then lowercased; for
the bundled subclasses this coincides with suffix removal): after the
module body runs, the registry maps `"json"`, `"xml"` and `"yaml"` to
the respective classes; registering any subclass makes it retrievable
under its computed key; which class `create` instantiates depends only
on the lowercased argument (case-insensitive matching); and `create`
raises `ValueError` exactly for unknown formats. -/
theorem serializer_registry_amended (reg : Fact.Registry)
    (name s s₁ s₂ : String) :
    (Fact.initialRegistry.lookup "json" = some "JSONSerializer"
      ∧ Fact.initialRegistry.lookup "xml" = some "XMLSerializer"
      ∧ Fact.initialRegistry.lookup "yaml" = some "YAMLSerializer")
    ∧ (Fact.registerSubclass reg name).lookup (Fact.registryKey name)
        = some name
    ∧ (Fact.pyLower s₁ = Fact.pyLower s₂ → ∀ c,
        (Fact.create Fact.initialRegistry s₁ = .ok c
          ↔ Fact.create Fact.initialRegistry s₂ = .ok c))
    ∧ (Fact.pyLower s ∉ (["json", "xml", "yaml"] : List String) →
        Fact.create Fact.initialRegistry s
          = .error ("Unknown format: " ++ s))
    ∧ (Fact.pyLower s ∈ (["json", "xml", "yaml"] : List String) →
        ∃ c, Fact.create Fact.initialRegistry s = .ok c) := by
  refine ⟨⟨by decide, by decide, by decide⟩, ?_, ?_, ?_, ?_⟩
  · simp [Fact.registerSubclass, List.lookup]
  · intro h c
    simp only [Fact.create, h]
    cases List.lookup (Fact.pyLower s₂) Fact.initialRegistry <;> simp
  · intro h
    simp only [List.mem_cons, List.not_mem_nil, or_false, not_or] at h
    obtain ⟨h1, h2, h3⟩ := h
    simp only [Fact.create, Fact.initialRegistry_lookup]
    rw [if_neg h3, if_neg h2, if_neg h1]
  · intro h
    simp only [List.mem_cons, List.not_mem_nil, or_false] at h
    rcases h with h | h | h
    · exact ⟨"JSONSerializer",
        by simp [Fact.create, Fact.initialRegistry_lookup, h]⟩
    · exact ⟨"XMLSerializer",
        by simp [Fact.create, Fact.initialRegistry_lookup, h]⟩
    · exact ⟨"YAMLSerializer",
        by simp [Fact.create, Fact.initialRegistry_lookup, h]⟩

/-- Witness for C7: an unknown format raises `ValueError`. -/
theorem serializer_registry_amended_witness :
    Fact.create Fact.initialRegistry "protobuf"
      = .error ("Unknown format: " ++ "protobuf") := by
  exact (serializer_registry_amended [] "CSVSerializer" "protobuf"
    "a" "a").2.2.2.1 (by decide)

/-- A single call never changes the pool's configuration (factory,
bound, timeout). -/
theorem OP.step_config (p : OP.Pool α) (op : OP.PoolOp α) :
    (OP.step p op).factory = p.factory
    ∧ (OP.step p op).max_size = p.max_size
    ∧ (OP.step p op).timeout = p.timeout := by
  obtain ⟨f, m, t, q, c⟩ := p
  cases op with
  | acquireOp now =>
    cases t with
    | none => cases q <;> simp [OP.step, OP.acquire, OP.queueGet]
    | some t0 =>
      by_cases hneg : t0 < 0
      · simp [OP.step, OP.acquire, OP.queueGet, hneg]
      · cases q with
        | cons po rest => simp [OP.step, OP.acquire, OP.queueGet, hneg]
        | nil =>
          by_cases h : (c : ℤ) < m <;>
            simp [OP.step, OP.acquire, OP.queueGet, hneg, h]
  | releaseOp now x =>
    by_cases h : 0 < m ∧ m ≤ (q.length : ℤ) <;>
      simp [OP.step, OP.release, OP.putNowait, h]
  | clearOp => simp [OP.step, OP.clear]

/-- A call sequence never changes the pool's configuration. -/
theorem OP.runPool_config (tr : List (OP.PoolOp α)) :
    ∀ p : OP.Pool α,
      (OP.runPool p tr).factory = p.factory
      ∧ (OP.runPool p tr).max_size = p.max_size
      ∧ (OP.runPool p tr).timeout = p.timeout := by
  induction tr with
  | nil => intro p; exact ⟨rfl, rfl, rfl⟩
  | cons op rest ih =>
    intro p
    have h1 := OP.step_config p op
    have h2 := ih (OP.step p op)
    have hr : OP.runPool p (op :: rest) = OP.runPool (OP.step p op) rest := rfl
    rw [hr]
    exact ⟨h2.1.trans h1.1, h2.2.1.trans h1.2.1, h2.2.2.trans h1.2.2⟩

/-- A single call only ever adds the released object to the queue. -/
theorem OP.mem_step_pool (p : OP.Pool α) (op : OP.PoolOp α)
    (po : OP.PooledObject α) (h : po ∈ (OP.step p op).pool) :
    po ∈ p.pool ∨ po.obj ∈ OP.releasedArgs [op] := by
  obtain ⟨f, m, t, q, c⟩ := p
  cases op with
  | acquireOp now =>
    left
    cases t with
    | none =>
      cases q with
      | cons p0 rest =>
        simp only [OP.step, OP.acquire, OP.queueGet] at h
        exact List.mem_cons_of_mem _ h
      | nil => simp [OP.step, OP.acquire, OP.queueGet] at h
    | some t0 =>
      by_cases hneg : t0 < 0
      · simpa [OP.step, OP.acquire, OP.queueGet, hneg] using h
      · cases q with
        | cons p0 rest =>
          simp only [OP.step, OP.acquire, OP.queueGet, if_neg hneg] at h
          exact List.mem_cons_of_mem _ h
        | nil =>
          by_cases hc : (c : ℤ) < m <;>
            simp [OP.step, OP.acquire, OP.queueGet, hneg, hc] at h
  | releaseOp now x =>
    by_cases hf : 0 < m ∧ m ≤ (q.length : ℤ)
    · left; simpa [OP.step, OP.release, OP.putNowait, hf] using h
    · have h' : po ∈ q ++ [(⟨x, now, now, 0⟩ : OP.PooledObject α)] := by
        simpa [OP.step, OP.release, OP.putNowait, hf] using h
      rcases List.mem_append.mp h' with h2 | h2
      · exact Or.inl h2
      · right
        have hpo : po = ⟨x, now, now, 0⟩ := by simpa using h2
        simp [OP.releasedArgs, hpo]
  | clearOp => simp [OP.step, OP.clear] at h

/-- Splitting the released objects of a call sequence at its head. -/
theorem OP.releasedArgs_cons (op : OP.PoolOp α) (tr : List (OP.PoolOp α)) :
    OP.releasedArgs (op :: tr) = OP.releasedArgs [op] ++ OP.releasedArgs tr := by
  cases op <;> simp [OP.releasedArgs]

/-- Everything sitting in the queue after a call sequence was either
there at the start or was an argument of some `release` call. -/
theorem OP.mem_runPool_pool (tr : List (OP.PoolOp α)) :
    ∀ (p : OP.Pool α) (po : OP.PooledObject α),
      po ∈ (OP.runPool p tr).pool →
      po ∈ p.pool ∨ po.obj ∈ OP.releasedArgs tr := by
  induction tr with
  | nil => intro p po h; exact Or.inl h
  | cons op rest ih =>
    intro p po h
    have hr : OP.runPool p (op :: rest) = OP.runPool (OP.step p op) rest := rfl
    rw [hr] at h
    rcases ih (OP.step p op) po h with h1 | h1
    · rcases OP.mem_step_pool p op po h1 with h2 | h2
      · exact Or.inl h2
      · right; rw [OP.releasedArgs_cons]
        exact List.mem_append.mpr (Or.inl h2)
    · right; rw [OP.releasedArgs_cons]
      exact List.mem_append.mpr (Or.inr h1)

/-- With a positive bound, a single call keeps both the created count
and the queue length at or below the bound. -/
theorem OP.step_bounds (m : ℤ) (hm : 1 ≤ m) (p : OP.Pool α)
    (op : OP.PoolOp α) (h1 : p.max_size = m)
    (h2 : (p.created_count : ℤ) ≤ m) (h3 : (p.pool.length : ℤ) ≤ m) :
    ((OP.step p op).created_count : ℤ) ≤ m
    ∧ ((OP.step p op).pool.length : ℤ) ≤ m := by
  obtain ⟨f, ms, t, q, c⟩ := p
  simp only at h1 h2 h3
  subst h1
  cases op with
  | acquireOp now =>
    cases t with
    | none =>
      cases q with
      | cons p0 rest =>
        refine ⟨by simpa [OP.step, OP.acquire, OP.queueGet] using h2, ?_⟩
        have hlen := h3
        simp only [List.length_cons] at hlen
        simp [OP.step, OP.acquire, OP.queueGet]
        push_cast at hlen ⊢
        omega
      | nil =>
        exact ⟨by simpa [OP.step, OP.acquire, OP.queueGet] using h2,
          by simpa [OP.step, OP.acquire, OP.queueGet] using h3⟩
    | some t0 =>
      by_cases hneg : t0 < 0
      · exact ⟨by simpa [OP.step, OP.acquire, OP.queueGet, hneg] using h2,
          by simpa [OP.step, OP.acquire, OP.queueGet, hneg] using h3⟩
      · cases q with
        | cons p0 rest =>
          refine ⟨by simpa [OP.step, OP.acquire, OP.queueGet, hneg] using h2,
            ?_⟩
          have hlen := h3
          simp only [List.length_cons] at hlen
          simp [OP.step, OP.acquire, OP.queueGet, hneg]
          push_cast at hlen ⊢
          omega
        | nil =>
          by_cases hc : (c : ℤ) < ms
          · refine ⟨?_,
              by simpa [OP.step, OP.acquire, OP.queueGet, hneg, hc] using h3⟩
            simp [OP.step, OP.acquire, OP.queueGet, hneg, hc]
            omega
          · exact
              ⟨by simpa [OP.step, OP.acquire, OP.queueGet, hneg, hc] using h2,
               by simpa [OP.step, OP.acquire, OP.queueGet, hneg, hc] using h3⟩
  | releaseOp now x =>
    by_cases hf : 0 < ms ∧ ms ≤ (q.length : ℤ)
    · exact ⟨by simpa [OP.step, OP.release, OP.putNowait, hf] using h2,
        by simpa [OP.step, OP.release, OP.putNowait, hf] using h3⟩
    · refine ⟨by simpa [OP.step, OP.release, OP.putNowait, hf] using h2, ?_⟩
      simp [OP.step, OP.release, OP.putNowait, hf]
      omega
  | clearOp =>
    refine ⟨by simpa [OP.step, OP.clear] using h2, ?_⟩
    simp [OP.step, OP.clear]
    omega

/-- With a positive bound, a call sequence keeps both the created count
and the queue length at or below the bound. -/
theorem OP.runPool_bounds (m : ℤ) (hm : 1 ≤ m) (tr : List (OP.PoolOp α)) :
    ∀ p : OP.Pool α, p.max_size = m → (p.created_count : ℤ) ≤ m →
      ((p.pool.length : ℤ) ≤ m) →
      ((OP.runPool p tr).created_count : ℤ) ≤ m
      ∧ ((OP.runPool p tr).pool.length : ℤ) ≤ m := by
  induction tr with
  | nil => intro p h1 h2 h3; exact ⟨h2, h3⟩
  | cons op rest ih =>
    intro p h1 h2 h3
    have hb := OP.step_bounds m hm p op h1 h2 h3
    have hc := (OP.step_config p op).2.1
    have hr : OP.runPool p (op :: rest) = OP.runPool (OP.step p op) rest := rfl
    rw [hr]
    exact ih (OP.step p op) (hc.trans h1) hb.1 hb.2

/-- Counterexample for C1 as stated: at the finite timeout `-1`,
CPython's `Queue.get` raises `ValueError` before touching the queue,
and `ObjectPool.acquire` catches only `Empty`, so the `ValueError`
propagates: with a released object waiting in the queue, `acquire`
does not return it, and with an exhausted empty pool it raises
`ValueError`, not `TimeoutError`. -/
theorem pool_acquire_negative_timeout_counterexample :
    (OP.runPool (OP.mkPool (fun n => n) 2 (some (-1)))
        [OP.PoolOp.releaseOp 0 7]).pool
      = [⟨7, 0, 0, 0⟩]
    ∧ (OP.acquire 0 (OP.runPool (OP.mkPool (fun n => n) 2 (some (-1)))
        [OP.PoolOp.releaseOp 0 7])).1 = .valueError
    ∧ (OP.acquire 0 (OP.runPool (OP.mkPool (fun n => n) 2 (some (-1)))
        [OP.PoolOp.releaseOp 0 7])).1 ≠ .ok 7
    ∧ (OP.acquire 0 (OP.mkPool (fun n => n) 0 (some (-1)))).1 = .valueError
    ∧ (OP.acquire 0 (OP.mkPool (fun n => n) 0 (some (-1)))).1
        ≠ .timeoutError := by
  refine ⟨by decide, by decide, by decide, by decide, by decide⟩

/-- Claim C1 (amended — for a finite *non-negative* timeout; a negative
timeout makes `Queue.get` raise `ValueError` before touching the
queue, which `except Empty` does not catch): after any call sequence
on a fresh pool, when the queue is non-empty `acquire` returns the
front object, which was previously passed to `release`, and removes it
from the queue; when the queue is empty (so `get` times out) and fewer
than `max_size` objects have been created, `acquire` returns a fresh
object from the factory and bumps the created count; and `acquire`
raises `TimeoutError` exactly when the queue is empty and the created
count has reached `max_size`. -/
theorem pool_acquire_semantics (α : Type) (f : ℕ → α) (m : ℤ) (t : ℚ)
    (ht0 : 0 ≤ t) (tr : List (OP.PoolOp α)) (now : ℚ)
    (po : OP.PooledObject α) (rest : List (OP.PooledObject α))
    (p : OP.Pool α) (hp : p = OP.runPool (OP.mkPool f m (some t)) tr) :
    (p.pool = po :: rest →
        (OP.acquire now p).1 = .ok po.obj
        ∧ po.obj ∈ OP.releasedArgs tr
        ∧ (OP.acquire now p).2.pool = rest)
    ∧ (p.pool = [] → (p.created_count : ℤ) < m →
        (OP.acquire now p).1 = .ok (f p.created_count)
        ∧ (OP.acquire now p).2.created_count = p.created_count + 1)
    ∧ ((OP.acquire now p).1 = .timeoutError
        ↔ (p.pool = [] ∧ m ≤ (p.created_count : ℤ))) := by
  have hconf := OP.runPool_config tr (OP.mkPool f m (some t))
  have ht : p.timeout = some t := by rw [hp]; exact hconf.2.2
  have hmax : p.max_size = m := by rw [hp]; exact hconf.2.1
  have hfac : p.factory = f := by rw [hp]; exact hconf.1
  have hneg : ¬(t < 0) := not_lt.mpr ht0
  refine ⟨?_, ?_, ?_⟩
  · intro hpool
    refine ⟨by simp [OP.acquire, OP.queueGet, ht, hneg, hpool], ?_,
      by simp [OP.acquire, OP.queueGet, ht, hneg, hpool]⟩
    have hmem : po ∈ p.pool := by rw [hpool]; exact List.mem_cons_self po rest
    rw [hp] at hmem
    rcases OP.mem_runPool_pool tr (OP.mkPool f m (some t)) po hmem with h | h
    · simp [OP.mkPool] at h
    · exact h
  · intro hpool hc
    have hc' : (p.created_count : ℤ) < p.max_size := by rw [hmax]; exact hc
    constructor
    · simp [OP.acquire, OP.queueGet, ht, hneg, hpool, hc', hfac]
    · simp [OP.acquire, OP.queueGet, ht, hneg, hpool, hc']
  · constructor
    · intro hres
      rcases hq : p.pool with _ | ⟨po1, rest1⟩
      · refine ⟨rfl, ?_⟩
        by_contra hlt
        push_neg at hlt
        have hc' : (p.created_count : ℤ) < p.max_size := by
          rw [hmax]; exact hlt
        rw [show (OP.acquire now p).1
            = .ok (p.factory p.created_count) by
          simp [OP.acquire, OP.queueGet, ht, hneg, hq, hc']] at hres
        exact absurd hres (by simp)
      · rw [show (OP.acquire now p).1 = .ok po1.obj by
          simp [OP.acquire, OP.queueGet, ht, hneg, hq]] at hres
        exact absurd hres (by simp)
    · rintro ⟨hq, hc⟩
      have hc' : ¬((p.created_count : ℤ) < p.max_size) := by
        rw [hmax]; omega
      simp [OP.acquire, OP.queueGet, ht, hneg, hq, hc']

/-- Witness for C1 (amended): after releasing `7` into a fresh pool of
bound 2 with timeout 1, `acquire` returns `7` from the queue. -/
theorem pool_acquire_semantics_witness :
    (OP.acquire 0 (OP.runPool (OP.mkPool (fun n => n) 2 (some 1))
        [OP.PoolOp.releaseOp 0 7])).1 = .ok 7 := by
  exact ((pool_acquire_semantics ℕ (fun n => n) 2 1 (by norm_num)
    [OP.PoolOp.releaseOp 0 7] 0 ⟨7, 0, 0, 0⟩ []
    (OP.runPool (OP.mkPool (fun n => n) 2 (some 1))
      [OP.PoolOp.releaseOp 0 7]) rfl).1 (by decide)).1

/-- Counterexample for C2 as stated: with `max_size = 0` the underlying
`Queue(maxsize=0)` is *unbounded*, so a single `release` stores the
object and `size()` exceeds `max_size`. -/
theorem pool_bound_counterexample :
    OP.size (OP.runPool (OP.mkPool (fun n => n) 0 none)
        [OP.PoolOp.releaseOp 0 42]) = 1
    ∧ (OP.mkPool (fun n : ℕ => n) 0 none).max_size = 0
    ∧ ¬((OP.size (OP.runPool (OP.mkPool (fun n => n) 0 none)
          [OP.PoolOp.releaseOp 0 42]) : ℤ)
        ≤ (OP.mkPool (fun n : ℕ => n) 0 none).max_size) := by
  refine ⟨by decide, rfl, by decide⟩

/-- Claim C2 (amended — for pools with `max_size ≥ 1`; with
`max_size ≤ 0` the queue is unbounded and the `size()` bound fails):
under every call sequence of `acquire`/`release`/`clear`, the number of
objects created through the factory never exceeds `max_size`, `size()`
never exceeds `max_size`, and `release` on a full pool silently
discards the object, leaving the pool unchanged (`release` is total —
the `Full` exception is swallowed — so it never raises). -/
theorem pool_bounded_amended (α : Type) (f : ℕ → α) (m : ℤ) (hm : 1 ≤ m)
    (t : Option ℚ) (tr : List (OP.PoolOp α)) (now : ℚ) (x : α) :
    ((OP.runPool (OP.mkPool f m t) tr).created_count : ℤ) ≤ m
    ∧ ((OP.size (OP.runPool (OP.mkPool f m t) tr) : ℤ) ≤ m)
    ∧ ((OP.size (OP.runPool (OP.mkPool f m t) tr) : ℤ) = m →
        OP.release now x (OP.runPool (OP.mkPool f m t) tr)
          = OP.runPool (OP.mkPool f m t) tr) := by
  have hinv := OP.runPool_bounds m hm tr (OP.mkPool f m t) rfl
    (by simp [OP.mkPool]; omega) (by simp [OP.mkPool]; omega)
  have hms : (OP.runPool (OP.mkPool f m t) tr).max_size = m :=
    (OP.runPool_config tr (OP.mkPool f m t)).2.1
  refine ⟨hinv.1, hinv.2, ?_⟩
  intro hfull
  simp only [OP.size] at hfull
  have hcond : 0 < (OP.runPool (OP.mkPool f m t) tr).max_size
      ∧ (OP.runPool (OP.mkPool f m t) tr).max_size
        ≤ (((OP.runPool (OP.mkPool f m t) tr).pool.length : ℕ) : ℤ) := by
    rw [hms]
    omega
  simp [OP.release, OP.putNowait, hcond]

/-- Witness for C2 (amended): a pool of bound 1 holding one object
discards a further released object. -/
theorem pool_bounded_amended_witness :
    OP.release 0 9 (OP.runPool (OP.mkPool (fun n => n) 1 none)
        [OP.PoolOp.releaseOp 0 5])
      = OP.runPool (OP.mkPool (fun n => n) 1 none)
          [OP.PoolOp.releaseOp 0 5] := by
  exact (pool_bounded_amended ℕ (fun n => n) 1 (by norm_num) none
    [OP.PoolOp.releaseOp 0 5] 0 9).2.2 (by decide)
